import Mathlib

/-!
Shallow embedding of `gorandomify` (src/main.go): a JSON template expander
replacing placeholder tokens (`$UUID`, `$INT`, `$INT(lo:hi)`, `$CHAR`,
`$CHAR(n)`) with generated values.

Go's global `math/rand` source is modelled as a stream of naturals
(`Rand := List Nat`); each call to `rand.Intn` consumes the head.  Go `int`
is 64-bit here (amd64): arithmetic that can overflow goes through `wrap64`.
A Go run-time panic (e.g. `rand.Intn` with non-positive argument,
`make([]byte, n)` with negative `n`, a failed type assertion) is modelled as
`none` / `GoResult.panics`.
-/

namespace Gorandomify

/-- The process-global random source: an arbitrary stream of draws. -/
abbrev Rand := List Nat

/-- Model of `rand.Intn n`: panics (`none`) when `n <= 0`, otherwise returns
a value in `[0, n)` and the advanced source. -/
def randIntn (n : Int) (g : Rand) : Option (Int × Rand) :=
  if n ≤ 0 then none else some ((g.headD 0 : Int) % n, g.tail)

/-- Largest value of Go's 64-bit `int`. -/
def maxInt64 : Int := 9223372036854775807

/-- Two's-complement wrap-around of 64-bit signed `int` arithmetic. -/
def wrap64 (x : Int) : Int := (x + 2 ^ 63) % 2 ^ 64 - 2 ^ 63

/-- Numeric value of a run of decimal digit characters. -/
def digitsVal (l : List Char) : Nat :=
  l.foldl (fun a c => 10 * a + (c.toNat - 48)) 0

/-- A non-empty run of ASCII decimal digits. -/
def allDigits (l : List Char) : Bool :=
  !l.isEmpty && l.all fun c => c.isDigit

/-- Unsigned part of `strconv.Atoi`: a non-empty all-digit string within the
given (inclusive) bound, else failure. -/
def atoiMag (l : List Char) (bound : Int) : Option Int :=
  if allDigits l then
    if (digitsVal l : Int) ≤ bound then some (digitsVal l) else none
  else none

/-- Model of `strconv.Atoi` (64-bit): optional sign, then a non-empty digit
run; fails (`none`) on syntax errors and on values outside
`[-2^63, 2^63 - 1]` (Go's `ErrRange`). -/
def atoi (l : List Char) : Option Int :=
  if l.headD ' ' = '-' then (atoiMag l.tail (2 ^ 63)).map (fun n => -n)
  else if l.headD ' ' = '+' then atoiMag l.tail maxInt64
  else atoiMag l maxInt64

/-- Model of `strings.HasPrefix`. -/
def goHasPre (s pre : String) : Bool := pre.toList.isPrefixOf s.toList

/-- Model of `strings.Split` with a one-character separator: separators are
removed, empty fields kept, always at least one field. -/
def splitOnChar (sep : Char) : List Char → List (List Char)
  | [] => [[]]
  | c :: rest =>
    let r := splitOnChar sep rest
    if c = sep then [] :: r
    else (c :: r.headD []) :: r.tail

/-- Model of `strings.TrimSuffix` with a one-character suffix. -/
def trimSuffixChar (l : List Char) (c : Char) : List Char :=
  if l.getLast? = some c then l.dropLast else l

/-- A parsed JSON value (`map[string]interface{}` tree).  Objects are
association lists (Go maps: keys unique, iteration order fixed by the
embedding); JSON numbers are taken integral, which is all the claims need. -/
inductive JVal where
  | str : String → JVal
  | num : Int → JVal
  | jbool : Bool → JVal
  | null : JVal
  | arr : List JVal → JVal
  | obj : List (String × JVal) → JVal

mutual

/-- Boolean structural equality on `JVal` (deriving cannot handle the nested
inductive). -/
def jeq : JVal → JVal → Bool
  | .str a, .str b => a == b
  | .num a, .num b => a == b
  | .jbool a, .jbool b => a == b
  | .null, .null => true
  | .arr xs, .arr ys => jeqList xs ys
  | .obj xs, .obj ys => jeqEntries xs ys
  | _, _ => false

/-- Pointwise `jeq` on value lists. -/
def jeqList : List JVal → List JVal → Bool
  | [], [] => true
  | x :: xs, y :: ys => jeq x y && jeqList xs ys
  | _, _ => false

/-- Pointwise key/value `jeq` on object entry lists. -/
def jeqEntries : List (String × JVal) → List (String × JVal) → Bool
  | [], [] => true
  | (k, v) :: xs, (k2, v2) :: ys => k == k2 && jeq v v2 && jeqEntries xs ys
  | _, _ => false

end

/-- Result of a Go call returning `(T, error)` that may additionally panic. -/
inductive GoResult (α : Type) where
  | ok : α → GoResult α
  | err : String → GoResult α
  | panics : GoResult α
deriving Repr, DecidableEq

/-- Hexadecimal digit character for `n % 16`. -/
def hexDigit (n : Nat) : Char := "0123456789abcdef".toList.getD (n % 16) '0'

/-- Big-endian hexadecimal digits of `n`, padded to the given width. -/
def hexChars : Nat → Nat → List Char
  | 0, _ => []
  | w + 1, n => hexChars w (n / 16) ++ [hexDigit n]

/-- Modelled from the spec: the unique-identifier primitive
(`uuid.New().String()` from the external `github.com/google/uuid` package,
an external collaborator per §6) — a random 128-bit value in the standard
8-4-4-4-12 hex text encoding.  Its randomness is folded into the same
stream as `math/rand`. -/
def uuidString (n : Nat) : String :=
  let h := hexChars 32 (n % 2 ^ 128)
  String.mk (h.take 8 ++ '-' :: ((h.drop 8).take 4 ++ '-' ::
    ((h.drop 12).take 4 ++ '-' :: ((h.drop 16).take 4 ++ '-' :: h.drop 20))))

/-- Model of `regexp.MustCompile("^\\$INT\\((\\d+):(\\d+)\\)$")
.FindStringSubmatch value` (src/main.go:149): the whole string must be
`$INT(` + digits + `:` + digits + `)`; on a match the two digit capture
groups are returned. -/
def intTokenMatch (value : String) : Option (List Char × List Char) :=
  let l := value.toList
  if ("$INT(".toList).isPrefixOf l then
    let rest := l.drop 5
    if rest.getLast? = some ')' then
      match splitOnChar ':' rest.dropLast with
      | [d1, d2] => if allDigits d1 && allDigits d2 then some (d1, d2) else none
      | _ => none
    else none
  else none

/-- `getInt` (src/main.go:148): on a `$INT(lower:upper)` match, `Atoi` both
bounds; any `Atoi` error or `lower > upper` yields the error
`invalid INT range`, otherwise `rand.Intn(upper-lower+1) + lower` (64-bit
arithmetic, so the width computation can wrap).  Without a match,
`rand.Intn(10000)`. -/
def getInt (value : String) (g : Rand) : GoResult (Int × Rand) :=
  match intTokenMatch value with
  | none =>
    match randIntn 10000 g with
    | some (v, g1) => .ok (v, g1)
    | none => .panics
  | some (d1, d2) =>
    match atoi d1, atoi d2 with
    | some lower, some upper =>
      if lower > upper then .err "invalid INT range"
      else
        match randIntn (wrap64 (wrap64 (upper - lower) + 1)) g with
        | some (v, g1) => .ok (wrap64 (v + lower), g1)
        | none => .panics
    | _, _ => .err "invalid INT range"

/-- The alphanumeric charset of `getRandomStrNlen` (src/main.go:174). -/
def charset : List Char :=
  "abcdefghijklmnopqrstuvwxyzABCDEFGHIJKLMNOPQRSTUVWXYZ0123456789".toList

/-- The fill loop of `getRandomStrNlen`: each byte is
`charset[rand.Intn(62)]` (62 > 0, so `rand.Intn` cannot panic here;
`headD 0 % 62` is its drawn value). -/
def fillChars : Nat → Rand → List Char × Rand
  | 0, g => ([], g)
  | n + 1, g =>
    let c := charset.getD (g.headD 0 % 62) 'a'
    let p := fillChars n g.tail
    (c :: p.1, p.2)

/-- `getRandomStrNlen` (src/main.go:173): `make([]byte, n)` panics for
negative `n` (modelled as `none`), otherwise fills `n` random charset
bytes.  The `rand.Seed(time.Now().UnixNano())` reseed is absorbed by
quantifying over arbitrary streams. -/
def getRandomStrNlen (n : Int) (g : Rand) : Option (String × Rand) :=
  if n < 0 then none
  else
    let p := fillChars n.toNat g
    some (String.mk p.1, p.2)

/-- The length computation of `randomString` (src/main.go:164-169):
`strings.Split(value, "(")` must give exactly two parts, and `Atoi` of the
second part with a `)` suffix trimmed must succeed. -/
def lenArg (value : String) : Option Int :=
  let parts := splitOnChar '(' value.toList
  if parts.length = 2 then atoi (trimSuffixChar (parts.getD 1 []) ')') else none

/-- `randomString` (src/main.go:163): length defaults to 10 when `lenArg`
fails; the parsed length is used unchecked (so a negative one reaches
`make([]byte, n)` and panics). -/
def randomString (value : String) (g : Rand) : Option (String × Rand) :=
  getRandomStrNlen ((lenArg value).getD 10) g

/-- The closed set of updaters in the `updaters` table (src/main.go:48). -/
inductive UpdKind where
  | uuid
  | int
  | char
deriving DecidableEq, Repr

/-- `getUpdater` (src/main.go:136): case-sensitive prefix dispatch, checked
in the order `$UUID`, `$INT`, `$CHAR`; anything else gets no updater. -/
def getUpdater (value : String) : Option UpdKind :=
  if goHasPre value "$UUID" then some .uuid
  else if goHasPre value "$INT" then some .int
  else if goHasPre value "$CHAR" then some .char
  else none

/-- The `Update` methods (src/main.go:36-46): `UUIDUpdater` always returns a
fresh identifier string, `IntUpdater` wraps `getInt`, `CharUpdater` wraps
`randomString` (whose error is always `nil`, but which may panic). -/
def updaterUpdate : UpdKind → String → Rand → GoResult (JVal × Rand)
  | .uuid, _, g => .ok (.str (uuidString (g.headD 0)), g.tail)
  | .int, value, g =>
    match getInt value g with
    | .ok (n, g1) => .ok (.num n, g1)
    | .err e => .err e
    | .panics => .panics
  | .char, value, g =>
    match randomString value g with
    | some (s, g1) => .ok (.str s, g1)
    | none => .panics

/-- Go map read `m[key]` (first matching key; keys are unique under
`entriesNodupB`). -/
def lookupKey : List (String × JVal) → String → Option JVal
  | [], _ => none
  | (k, v) :: rest, key => if k = key then some v else lookupKey rest key

/-- Go map write `m[key] = nv`: replaces the entry when present, appends
otherwise. -/
def setKey : List (String × JVal) → String → JVal → List (String × JVal)
  | [], key, nv => [(key, nv)]
  | (k, v) :: rest, key, nv =>
    if k = key then (key, nv) :: rest else (k, v) :: setKey rest key nv

/-- The keys of an object, in entry order. -/
def keysOf (l : List (String × JVal)) : List String := l.map Prod.fst

/-- `copyData` (src/main.go:102): a shallow top-level copy.  At the value
level the copy equals the original; the aliasing of nested maps is captured
by the walker's store-passing translation. -/
def copyData (original : List (String × JVal)) : List (String × JVal) :=
  original

/-- `parseAndUpdate` (src/main.go:125).  The Go function receives the whole
`data` map and writes `data[key] = newVal`; since the walker visits each
key once, the embedding returns the value left at `key` in `data` together
with the updated shadow map, the advanced stream, and the console error
messages emitted by `colorize`. -/
def parseAndUpdate (key value : String) (copiedData : List (String × JVal))
    (g : Rand) : Option (JVal × List (String × JVal) × Rand × List String) :=
  match getUpdater value with
  | none => some (.str value, copiedData, g, [])
  | some u =>
    match updaterUpdate u value g with
    | .ok (newVal, g1) => some (newVal, setKey copiedData key newVal, g1, [])
    | .err e =>
      some (.str value, copiedData, g,
        ["Error updating key: " ++ key ++ ", value: " ++ value ++ ", err: " ++ e])
    | .panics => none

mutual

/-- One iteration of the `traverseAndUpdate` loop body (src/main.go:111-117)
for entry `(key, v)` of `data`: nested maps recurse with
`copiedData[key].(map[string]interface{})` (a failed type assertion panics,
modelled as `none`); strings go through `parseAndUpdate`; all other values
are untouched.  In-place mutation is rendered by returning the value left
at `data[key]` and the updated `copiedData`. -/
def traverseEntry : String → JVal → List (String × JVal) → Rand →
    Option (JVal × List (String × JVal) × Rand × List String)
  | key, .obj m, copiedData, g =>
    match lookupKey copiedData key with
    | some (.obj sm) =>
      match traverseAndUpdate m sm g with
      | some (m2, sm2, g1, log1) =>
        some (.obj m2, setKey copiedData key (.obj sm2), g1, log1)
      | none => none
    | _ => none
  | key, .str s, copiedData, g => parseAndUpdate key s copiedData g
  | _, v, copiedData, g => some (v, copiedData, g, [])

/-- `traverseAndUpdate` (src/main.go:110): walk every entry of `data`
(iteration order fixed by the embedding), threading `copiedData`, the
random stream, and the error log. -/
def traverseAndUpdate : List (String × JVal) → List (String × JVal) → Rand →
    Option (List (String × JVal) × List (String × JVal) × Rand × List String)
  | [], copiedData, g => some ([], copiedData, g, [])
  | (key, v) :: rest, copiedData, g =>
    match traverseEntry key v copiedData g with
    | some (nv, c1, g1, log1) =>
      match traverseAndUpdate rest c1 g1 with
      | some (rest2, c2, g2, log2) =>
        some ((key, nv) :: rest2, c2, g2, log1 ++ log2)
      | none => none
    | none => none

end

mutual

/-- Spec-side shape relation for claim C1: same key sequence and nesting at
every object level; a string leaf recognized by the matcher may change
arbitrarily, every other leaf (numbers, booleans, null, arrays, and
unrecognized strings) must be exactly unchanged. -/
def shapeOK : JVal → JVal → Bool
  | .str s, w => if (getUpdater s).isSome then true else jeq w (.str s)
  | .obj l, .obj l2 => shapeEntries l l2
  | v, w => jeq w v

/-- Entrywise `shapeOK`, requiring equal keys in equal order. -/
def shapeEntries : List (String × JVal) → List (String × JVal) → Bool
  | [], [] => true
  | (k, v) :: r, (k2, v2) :: r2 => k == k2 && shapeOK v v2 && shapeEntries r r2
  | _, _ => false

end

mutual

/-- Every object level of the tree has pairwise-distinct keys (true of any
tree produced by `encoding/json` unmarshalling into Go maps). -/
def treeNodupB : JVal → Bool
  | .obj l => entriesNodupB l
  | _ => true

/-- Key distinctness for one entry list, recursing into the values. -/
def entriesNodupB : List (String × JVal) → Bool
  | [] => true
  | (k, v) :: rest => !((keysOf rest).contains k) && treeNodupB v && entriesNodupB rest

end

/-! ### Basic lemmas: keys, lookup, write -/

@[simp]
theorem keysOf_nil : keysOf [] = [] := rfl

@[simp]
theorem keysOf_cons (k : String) (v : JVal) (rest : List (String × JVal)) :
    keysOf ((k, v) :: rest) = k :: keysOf rest := rfl

theorem lookupKey_mem {l : List (String × JVal)} {k : String} {v : JVal}
    (h : lookupKey l k = some v) : k ∈ keysOf l := by
  induction l with
  | nil => simp [lookupKey] at h
  | cons e rest ih =>
    obtain ⟨k1, v1⟩ := e
    by_cases hk : k1 = k
    · subst hk; simp
    · simp only [lookupKey, if_neg hk] at h
      simp [ih h]

theorem lookupKey_eq_none {l : List (String × JVal)} {k : String}
    (h : k ∉ keysOf l) : lookupKey l k = none := by
  induction l with
  | nil => rfl
  | cons e rest ih =>
    obtain ⟨k1, v1⟩ := e
    simp only [keysOf_cons, List.mem_cons] at h
    push_neg at h
    have hne : ¬k1 = k := fun hh => h.1 hh.symm
    simp [lookupKey, hne, ih h.2]

theorem keysOf_setKey {l : List (String × JVal)} {k : String} (v : JVal)
    (h : k ∈ keysOf l) : keysOf (setKey l k v) = keysOf l := by
  induction l with
  | nil => simp at h
  | cons e rest ih =>
    obtain ⟨k1, v1⟩ := e
    by_cases hk : k1 = k
    · simp [setKey, hk]
    · simp only [keysOf_cons, List.mem_cons] at h
      rcases h with h | h

      · exact absurd h.symm hk
      · simp [setKey, hk, ih h]

theorem lookupKey_setKey_self (l : List (String × JVal)) (k : String) (v : JVal) :
    lookupKey (setKey l k v) k = some v := by
  induction l with
  | nil => simp [setKey, lookupKey]
  | cons e rest ih =>
    obtain ⟨k1, v1⟩ := e
    by_cases hk : k1 = k
    · simp [setKey, hk, lookupKey]
    · simp [setKey, hk, lookupKey, ih]

theorem lookupKey_setKey_ne (l : List (String × JVal)) {k k2 : String} (v : JVal)
    (h : k2 ≠ k) : lookupKey (setKey l k v) k2 = lookupKey l k2 := by
  have hne : ¬k = k2 := fun hh => h hh.symm
  induction l with
  | nil => simp [setKey, lookupKey, hne]
  | cons e rest ih =>
    obtain ⟨k1, v1⟩ := e
    by_cases hk : k1 = k
    · subst hk
      simp [setKey, lookupKey, hne]
    · simp [setKey, hk, lookupKey, ih]

/-- Association lists with the same key sequence, no duplicate keys, and
equal lookups everywhere are equal. -/
theorem assocExt : ∀ {l1 l2 : List (String × JVal)}, keysOf l1 = keysOf l2 →
    (keysOf l1).Nodup → (∀ k, lookupKey l1 k = lookupKey l2 k) → l1 = l2 := by
  intro l1
  induction l1 with
  | nil =>
    intro l2 hk _ _
    cases l2 with
    | nil => rfl
    | cons e r =>
      obtain ⟨a, b⟩ := e
      simp at hk
  | cons e rest ih =>
    intro l2 hk hnd hl
    obtain ⟨k1, v1⟩ := e
    cases l2 with
    | nil => simp at hk
    | cons e2 r2 =>
      obtain ⟨k2, v2⟩ := e2
      simp only [keysOf_cons, List.cons.injEq] at hk
      obtain ⟨rfl, hkr⟩ := hk
      simp only [keysOf_cons, List.nodup_cons] at hnd
      have hv : v1 = v2 := by
        have := hl k1
        simpa [lookupKey] using this
      have hrest : rest = r2 := by
        refine ih hkr hnd.2 ?_
        intro k
        by_cases hkk : k = k1
        · subst hkk
          rw [lookupKey_eq_none hnd.1, lookupKey_eq_none (hkr ▸ hnd.1)]
        · have hne : ¬k1 = k := fun hh => hkk hh.symm
          have := hl k
          simpa [lookupKey, hne] using this
      rw [hv, hrest]

/-! ### `jeq` is equality -/

theorem jeq_iff : ∀ a b : JVal, jeq a b = true ↔ a = b := by
  apply jeq.induct
    (fun a b => jeq a b = true ↔ a = b)
    (fun xs ys => jeqEntries xs ys = true ↔ xs = ys)
    (fun xs ys => jeqList xs ys = true ↔ xs = ys)
  · intro a b; simp [jeq]
  · intro a b; simp [jeq]
  · intro a b; simp [jeq]
  · simp [jeq]
  · intro xs ys ih; simp [jeq, ih]
  · intro xs ys ih; simp [jeq, ih]
  · intro t x h1 h2 h3 h4 h5 h6
    cases t <;> cases x <;>
      first
        | (exfalso; solve_by_elim)
        | simp [jeq]
  · simp [jeqList]
  · intro x xs y ys ih1 ih2; simp [jeqList, ih1, ih2]
  · intro t x h1 h2
    cases t <;> cases x <;>
      first
        | (exfalso; solve_by_elim)
        | simp [jeqList]
  · simp [jeqEntries]
  · intro k v xs k2 v2 ys ih1 ih2; simp [jeqEntries, ih1, ih2]
  · intro t x h1 h2
    cases t <;> cases x <;>
      first
        | (exfalso; solve_by_elim)
        | simp [jeqEntries]

theorem jeq_refl (a : JVal) : jeq a a = true := (jeq_iff a a).2 rfl

/-! ### Random draws and 64-bit wrap-around -/

theorem randIntn_pos {n : Int} (h : 0 < n) (g : Rand) :
    randIntn n g = some ((g.headD 0 : Int) % n, g.tail) := by
  simp [randIntn, not_le.2 h]

theorem emod_bounds {n : Int} (h : 0 < n) (x : Int) :
    0 ≤ x % n ∧ x % n < n :=
  ⟨Int.emod_nonneg x (ne_of_gt h), Int.emod_lt_of_pos x h⟩

theorem wrap64_eq_self {x : Int} (h1 : -(2 ^ 63) ≤ x) (h2 : x < 2 ^ 63) :
    wrap64 x = x := by
  unfold wrap64
  rw [Int.emod_eq_of_lt (by omega) (by omega)]
  omega

theorem wrap64_min : wrap64 (maxInt64 + 1) = -(2 ^ 63) := by decide

/-! ### `strconv.Atoi` on the digit capture groups -/

theorem allDigits_head {d : List Char} (hd : allDigits d = true) :
    ∃ c rest, d = c :: rest ∧ c.isDigit = true := by
  cases d with
  | nil => simp [allDigits] at hd
  | cons c rest =>
    simp only [allDigits, List.isEmpty_cons, Bool.not_false, Bool.true_and,
      List.all_cons, Bool.and_eq_true] at hd
    exact ⟨c, rest, rfl, hd.1⟩

theorem allDigits_not_mem {d : List Char} (hd : allDigits d = true) {c : Char}
    (hc : c.isDigit = false) : c ∉ d := by
  intro hmem
  simp only [allDigits, Bool.and_eq_true, List.all_eq_true] at hd
  have := hd.2 c hmem
  rw [hc] at this
  exact Bool.false_ne_true this

theorem atoi_digits {d : List Char} (hd : allDigits d = true)
    (hle : (digitsVal d : Int) ≤ maxInt64) : atoi d = some (digitsVal d) := by
  obtain ⟨c, rest, rfl, hc⟩ := allDigits_head hd
  have h1 : ¬c = '-' := by rintro rfl; simp [Char.isDigit] at hc
  have h2 : ¬c = '+' := by rintro rfl; simp [Char.isDigit] at hc
  simp [atoi, h1, h2, atoiMag, hd, hle]

theorem atoi_digits_big {d : List Char} (hd : allDigits d = true)
    (hgt : maxInt64 < (digitsVal d : Int)) : atoi d = none := by
  obtain ⟨c, rest, rfl, hc⟩ := allDigits_head hd
  have h1 : ¬c = '-' := by rintro rfl; simp [Char.isDigit] at hc
  have h2 : ¬c = '+' := by rintro rfl; simp [Char.isDigit] at hc
  simp [atoi, h1, h2, atoiMag, hd, not_le.2 hgt]

/-! ### `strings.Split` on a separator-free payload -/

theorem splitOnChar_not_mem {sep : Char} {l : List Char} (h : sep ∉ l) :
    splitOnChar sep l = [l] := by
  induction l with
  | nil => rfl
  | cons c rest ih =>
    simp only [List.mem_cons] at h
    push_neg at h
    have hne : ¬c = sep := fun hh => h.1 hh.symm
    simp [splitOnChar, hne, ih h.2]

theorem splitOnChar_sep_append {sep : Char} {a : List Char} (b : List Char)
    (h : sep ∉ a) : splitOnChar sep (a ++ sep :: b) = a :: splitOnChar sep b := by
  induction a with
  | nil => simp [splitOnChar]
  | cons c rest ih =>
    simp only [List.mem_cons] at h
    push_neg at h
    have hne : ¬c = sep := fun hh => h.1 hh.symm
    simp [splitOnChar, hne, ih h.2]

/-! ### Exact token shapes -/

/-- The raw token `$INT(<d1>:<d2>)`. -/
def mkIntToken (d1 d2 : List Char) : String :=
  String.mk ('$' :: 'I' :: 'N' :: 'T' :: '(' :: (d1 ++ ':' :: (d2 ++ [')'])))

/-- The raw token `$CHAR(<d>)`. -/
def mkCharToken (d : List Char) : String :=
  String.mk ('$' :: 'C' :: 'H' :: 'A' :: 'R' :: '(' :: (d ++ [')']))

theorem intTokenMatch_mk {d1 d2 : List Char} (h1 : allDigits d1 = true)
    (h2 : allDigits d2 = true) :
    intTokenMatch (mkIntToken d1 d2) = some (d1, d2) := by
  have hc1 : ':' ∉ d1 := allDigits_not_mem h1 (by decide)
  have hc2 : ':' ∉ d2 := allDigits_not_mem h2 (by decide)
  have hshape : d1 ++ ':' :: (d2 ++ [')']) = (d1 ++ ':' :: d2) ++ [')'] := by
    rw [List.append_assoc]
    rfl
  have hsplit : splitOnChar ':' (d1 ++ ':' :: d2) = [d1, d2] := by
    rw [splitOnChar_sep_append d2 hc1, splitOnChar_not_mem hc2]
  simp only [intTokenMatch, mkIntToken, String.toList]
  simp only [List.isPrefixOf, List.drop, hshape, List.getLast?_concat,
    List.dropLast_concat, hsplit]
  simp [h1, h2]

theorem lenArg_mkCharToken {d : List Char} (hd : allDigits d = true) :
    lenArg (mkCharToken d) = atoi d := by
  have hp : '(' ∉ (['$', 'C', 'H', 'A', 'R'] : List Char) := by decide
  have hb : '(' ∉ d ++ [')'] := by
    intro hmem
    rcases List.mem_append.1 hmem with hm | hm
    · exact allDigits_not_mem hd (by decide) hm
    · simp at hm
  have hsplit : splitOnChar '('
      (('$' :: 'C' :: 'H' :: 'A' :: 'R' :: '(' :: (d ++ [')']) : List Char)) =
      [['$', 'C', 'H', 'A', 'R'], d ++ [')']] := by
    have hs := splitOnChar_sep_append (d ++ [')']) hp
    rw [show (['$', 'C', 'H', 'A', 'R'] : List Char) ++ '(' :: (d ++ [')']) =
        '$' :: 'C' :: 'H' :: 'A' :: 'R' :: '(' :: (d ++ [')']) from rfl] at hs
    rw [hs, splitOnChar_not_mem hb]
  have htrim : trimSuffixChar (d ++ [')']) ')' = d := by
    simp [trimSuffixChar, List.getLast?_concat, List.dropLast_concat]
  simp only [lenArg, mkCharToken, String.toList, hsplit]
  simp [htrim]

/-! ### Behaviour of `getInt` -/

theorem getInt_default {value : String} (h : intTokenMatch value = none) (g : Rand) :
    getInt value g = .ok ((g.headD 0 : Int) % 10000, g.tail) := by
  rw [getInt, h, randIntn_pos (by norm_num)]

theorem getInt_ok_spec {value : String} {d1 d2 : List Char} {lo hi : Int}
    (hm : intTokenMatch value = some (d1, d2))
    (ha1 : atoi d1 = some lo) (ha2 : atoi d2 = some hi)
    (h0 : 0 ≤ lo) (hlo : lo ≤ hi) (hhi : hi ≤ maxInt64)
    (hw : hi - lo + 1 ≤ maxInt64) (g : Rand) :
    wrap64 (wrap64 (hi - lo) + 1) = hi - lo + 1 ∧ 0 < hi - lo + 1 ∧
      ∃ v g2, getInt value g = GoResult.ok (v, g2) ∧ lo ≤ v ∧ v ≤ hi := by
  have hmax : maxInt64 = 2 ^ 63 - 1 := by norm_num [maxInt64]
  have hw1 : wrap64 (hi - lo) = hi - lo := wrap64_eq_self (by omega) (by omega)
  have hw2 : wrap64 (hi - lo + 1) = hi - lo + 1 := wrap64_eq_self (by omega) (by omega)
  have hpos : (0 : Int) < hi - lo + 1 := by omega
  refine ⟨by rw [hw1, hw2], hpos, ?_⟩
  obtain ⟨hb1, hb2⟩ := emod_bounds hpos (g.headD 0 : Int)
  refine ⟨(g.headD 0 : Int) % (hi - lo + 1) + lo, g.tail, ?_, by omega, by omega⟩
  simp [getInt, hm, ha1, ha2, gt_iff_lt, not_lt.2 hlo, hw1, hw2, randIntn_pos hpos]
  obtain ⟨hc1, hc2⟩ := emod_bounds hpos ((((g.head?).getD 0 : Nat)) : Int)
  exact wrap64_eq_self (by omega) (by omega)

theorem getInt_err_of_gt {value : String} {d1 d2 : List Char}
    (hm : intTokenMatch value = some (d1, d2))
    (h1 : allDigits d1 = true) (h2 : allDigits d2 = true)
    (hgt : digitsVal d2 < digitsVal d1) (g : Rand) :
    getInt value g = .err "invalid INT range" := by
  have hlt : (digitsVal d2 : Int) < (digitsVal d1 : Int) := by exact_mod_cast hgt
  by_cases hb1 : (digitsVal d1 : Int) ≤ maxInt64
  · by_cases hb2 : (digitsVal d2 : Int) ≤ maxInt64
    · simp [getInt, hm, atoi_digits h1 hb1, atoi_digits h2 hb2, gt_iff_lt, hlt]
    · simp [getInt, hm, atoi_digits h1 hb1, atoi_digits_big h2 (not_le.1 hb2)]
  · by_cases hb2 : (digitsVal d2 : Int) ≤ maxInt64
    · simp [getInt, hm, atoi_digits_big h1 (not_le.1 hb1), atoi_digits h2 hb2]
    · simp [getInt, hm, atoi_digits_big h1 (not_le.1 hb1),
        atoi_digits_big h2 (not_le.1 hb2)]

theorem getInt_err_of_overflow {value : String} {d1 d2 : List Char}
    (hm : intTokenMatch value = some (d1, d2))
    (h1 : allDigits d1 = true) (h2 : allDigits d2 = true)
    (hbig : maxInt64 < (digitsVal d1 : Int) ∨ maxInt64 < (digitsVal d2 : Int))
    (g : Rand) : getInt value g = .err "invalid INT range" := by
  rcases hbig with hb | hb
  · cases h : atoi d2 <;>
      simp [getInt, hm, atoi_digits_big h1 (by omega), h]
  · cases h : atoi d1 <;>
      simp [getInt, hm, atoi_digits_big h2 (by omega), h]

/-! ### Behaviour of `randomString` -/

theorem fillChars_spec : ∀ (n : Nat) (g : Rand),
    (fillChars n g).1.length = n ∧ ∀ c ∈ (fillChars n g).1, c ∈ charset := by
  intro n
  induction n with
  | zero => intro g; simp [fillChars]
  | succ m ih =>
    intro g
    obtain ⟨ihl, ihm⟩ := ih g.tail
    have hidx : g.headD 0 % 62 < charset.length := by
      have : g.headD 0 % 62 < 62 := Nat.mod_lt _ (by norm_num)
      simpa [charset] using this
    constructor
    · simp [fillChars, ihl]
    · intro c hc
      simp only [fillChars, List.mem_cons] at hc
      rcases hc with rfl | hc
      · rw [List.getD_eq_getElem _ _ hidx]
        exact List.getElem_mem _
      · exact ihm c hc

theorem getRandomStrNlen_spec {n : Int} (hn : 0 ≤ n) (g : Rand) :
    ∃ s g2, getRandomStrNlen n g = some (s, g2) ∧ (s.length : Int) = n ∧
      ∀ c ∈ s.toList, c ∈ charset := by
  obtain ⟨hl, hm⟩ := fillChars_spec n.toNat g
  refine ⟨String.mk (fillChars n.toNat g).1, (fillChars n.toNat g).2, ?_, ?_, ?_⟩
  · rw [getRandomStrNlen, if_neg (not_lt.2 hn)]
  · show (((fillChars n.toNat g).1.length : Nat) : Int) = n
    rw [hl, Int.toNat_of_nonneg hn]
  · intro c hc
    exact hm c hc

theorem randomString_spec {value : String} {len : Int}
    (ha : (lenArg value).getD 10 = len) (hn : 0 ≤ len) (g : Rand) :
    ∃ s g2, randomString value g = some (s, g2) ∧ (s.length : Int) = len ∧
      ∀ c ∈ s.toList, c ∈ charset := by
  rw [randomString, ha]
  exact getRandomStrNlen_spec hn g

/-! ### The walk preserves the key structure -/

@[simp]
theorem lookupKey_nil (k : String) : lookupKey [] k = none := rfl

@[simp]
theorem lookupKey_cons (k1 : String) (v1 : JVal) (rest : List (String × JVal))
    (k : String) :
    lookupKey ((k1, v1) :: rest) k = if k1 = k then some v1 else lookupKey rest k :=
  rfl

theorem walk_shape : ∀ (data copiedData : List (String × JVal)) (g : Rand),
    ∀ d2 c2 g2 log2, traverseAndUpdate data copiedData g = some (d2, c2, g2, log2) →
      shapeEntries data d2 = true := by
  apply traverseAndUpdate.induct
    (fun key v copiedData g => ∀ nv c1 g1 log1,
      traverseEntry key v copiedData g = some (nv, c1, g1, log1) →
      shapeOK v nv = true)
    (fun data copiedData g => ∀ d2 c2 g2 log2,
      traverseAndUpdate data copiedData g = some (d2, c2, g2, log2) →
      shapeEntries data d2 = true)
  · intro key m copiedData g sm hlook m2 sm2 g1 log1 hwalk ih nv c1 g1' log1' heq
    simp only [traverseEntry, hlook, hwalk, Option.some.injEq, Prod.mk.injEq] at heq
    obtain ⟨rfl, -, -, -⟩ := heq
    simp only [shapeOK]
    exact ih m2 sm2 g1 log1 hwalk
  · intro key m copiedData g sm hlook hwalk ih nv c1 g1 log1 heq
    simp [traverseEntry, hlook, hwalk] at heq
  · intro key m copiedData g hfalse nv c1 g1 log1 heq
    rcases hl : lookupKey copiedData key with _ | val
    · simp [traverseEntry, hl] at heq
    · cases val <;>
        first
          | exact (hfalse _ hl).elim
          | simp [traverseEntry, hl] at heq
  · intro key s copiedData g nv c1 g1 log1 heq
    rcases hg : getUpdater s with _ | u
    · simp only [traverseEntry, parseAndUpdate, hg, Option.some.injEq,
        Prod.mk.injEq] at heq
      obtain ⟨rfl, -, -, -⟩ := heq
      simp [shapeOK, hg, jeq]
    · rcases hu : updaterUpdate u s g with ⟨w, g2⟩ | e
      · simp only [traverseEntry, parseAndUpdate, hg, hu, Option.some.injEq,
          Prod.mk.injEq] at heq
        obtain ⟨rfl, -, -, -⟩ := heq
        simp [shapeOK, hg]
      · simp only [traverseEntry, parseAndUpdate, hg, hu, Option.some.injEq,
          Prod.mk.injEq] at heq
        obtain ⟨rfl, -, -, -⟩ := heq
        simp [shapeOK, hg]
      · simp [traverseEntry, parseAndUpdate, hg, hu] at heq
  · intro key v copiedData g hobj hstr nv c1 g1 log1 heq
    cases v with
    | obj m => exact (hobj m rfl).elim
    | str s => exact (hstr s rfl).elim
    | num a =>
      simp only [traverseEntry, Option.some.injEq, Prod.mk.injEq] at heq
      obtain ⟨rfl, -, -, -⟩ := heq
      simp [shapeOK, jeq_refl]
    | jbool b =>
      simp only [traverseEntry, Option.some.injEq, Prod.mk.injEq] at heq
      obtain ⟨rfl, -, -, -⟩ := heq
      simp [shapeOK, jeq_refl]
    | null =>
      simp only [traverseEntry, Option.some.injEq, Prod.mk.injEq] at heq
      obtain ⟨rfl, -, -, -⟩ := heq
      simp [shapeOK, jeq_refl]
    | arr xs =>
      simp only [traverseEntry, Option.some.injEq, Prod.mk.injEq] at heq
      obtain ⟨rfl, -, -, -⟩ := heq
      simp [shapeOK, jeq_refl]
  · intro copiedData g d2 c2 g2 log2 heq
    simp only [traverseAndUpdate, Option.some.injEq, Prod.mk.injEq] at heq
    obtain ⟨rfl, -, -, -⟩ := heq
    rfl
  · intro key v rest copiedData g nv c1 g1 log1 hte m2 sm2 g1_1 log1' hwr ih1 ih2
      d2 c2 g2 log2 heq
    simp only [traverseAndUpdate, hte, hwr, Option.some.injEq, Prod.mk.injEq] at heq
    obtain ⟨rfl, -, -, -⟩ := heq
    simp only [shapeEntries, Bool.and_eq_true, beq_self_eq_true]
    exact ⟨⟨trivial, ih1 nv c1 g1 log1 hte⟩, ih2 m2 sm2 g1_1 log1' hwr⟩
  · intro key v rest copiedData g nv c1 g1 log1 hte hwr ih1 ih2 d2 c2 g2 log2 heq
    simp [traverseAndUpdate, hte, hwr] at heq
  · intro key v rest copiedData g hte ih1 d2 c2 g2 log2 heq
    simp [traverseAndUpdate, hte] at heq

end Gorandomify

namespace Gorandomify

/-! ### Document and working copy stay aligned -/

theorem entriesNodupB_key_not_mem {k : String} {v : JVal}
    {rest : List (String × JVal)} (h : entriesNodupB ((k, v) :: rest) = true) :
    k ∉ keysOf rest ∧ treeNodupB v = true ∧ entriesNodupB rest = true := by
  simp only [entriesNodupB, Bool.and_eq_true, Bool.not_eq_true'] at h
  refine ⟨?_, h.1.2, h.2⟩
  intro hmem
  have hc := h.1.1
  simp only [List.contains] at hc
  rw [List.elem_eq_true_of_mem hmem] at hc
  exact Bool.noConfusion hc

theorem entriesNodupB_nodup : ∀ {l : List (String × JVal)},
    entriesNodupB l = true → (keysOf l).Nodup := by
  intro l
  induction l with
  | nil => intro _; simp
  | cons e rest ih =>
    obtain ⟨k, v⟩ := e
    intro h
    obtain ⟨h1, _, h3⟩ := entriesNodupB_key_not_mem h
    simp only [keysOf_cons, List.nodup_cons]
    exact ⟨h1, ih h3⟩

theorem walk_copy_aligned : ∀ (data copiedData : List (String × JVal)) (g : Rand),
    ∀ d2 c2 g2 log2, traverseAndUpdate data copiedData g = some (d2, c2, g2, log2) →
      entriesNodupB data = true →
      (∀ k v, lookupKey data k = some v → lookupKey copiedData k = some v) →
      (∀ k, k ∈ keysOf data → lookupKey c2 k = lookupKey d2 k) ∧
      (∀ k, k ∉ keysOf data → lookupKey c2 k = lookupKey copiedData k) ∧
      keysOf c2 = keysOf copiedData ∧ keysOf d2 = keysOf data := by
  apply traverseAndUpdate.induct
    (fun key v copiedData g => ∀ nv c1 g1 log1,
      traverseEntry key v copiedData g = some (nv, c1, g1, log1) →
      treeNodupB v = true →
      lookupKey copiedData key = some v →
      lookupKey c1 key = some nv ∧
      (∀ k, k ≠ key → lookupKey c1 k = lookupKey copiedData k) ∧
      keysOf c1 = keysOf copiedData)
    (fun data copiedData g => ∀ d2 c2 g2 log2,
      traverseAndUpdate data copiedData g = some (d2, c2, g2, log2) →
      entriesNodupB data = true →
      (∀ k v, lookupKey data k = some v → lookupKey copiedData k = some v) →
      (∀ k, k ∈ keysOf data → lookupKey c2 k = lookupKey d2 k) ∧
      (∀ k, k ∉ keysOf data → lookupKey c2 k = lookupKey copiedData k) ∧
      keysOf c2 = keysOf copiedData ∧ keysOf d2 = keysOf data)
  · intro key m copiedData g sm hlook m2 sm2 g1 log1 hwalk ih nv c1 g1' log1' heq
      hnd hagree
    have hsm : sm = m := by
      have h := hagree.symm.trans hlook
      injection h with h2
      injection h2 with h3
      exact h3.symm
    subst hsm
    simp only [traverseEntry, hlook, hwalk, Option.some.injEq, Prod.mk.injEq] at heq
    obtain ⟨rfl, rfl, -, -⟩ := heq
    have hndm : entriesNodupB sm = true := by simpa [treeNodupB] using hnd
    obtain ⟨A, B, C, D⟩ := ih m2 sm2 g1 log1 hwalk hndm (fun k v h => h)
    have hnodupm : (keysOf sm).Nodup := entriesNodupB_nodup hndm
    have hsm2 : sm2 = m2 := by
      refine assocExt (C.trans D.symm) (by rw [C]; exact hnodupm) ?_
      intro k
      by_cases hk : k ∈ keysOf sm
      · exact A k hk
      · rw [B k hk, lookupKey_eq_none hk, lookupKey_eq_none (by rw [D]; exact hk)]
    subst hsm2
    have hmem : key ∈ keysOf copiedData := lookupKey_mem hagree
    exact ⟨lookupKey_setKey_self _ _ _, fun k hk => lookupKey_setKey_ne _ _ hk,
      keysOf_setKey _ hmem⟩
  · intro key m copiedData g sm hlook hwalk ih nv c1 g1 log1 heq hnd hagree
    simp [traverseEntry, hlook, hwalk] at heq
  · intro key m copiedData g hfalse nv c1 g1 log1 heq hnd hagree
    rcases hl : lookupKey copiedData key with _ | val
    · simp [traverseEntry, hl] at heq
    · cases val <;>
        first
          | exact (hfalse _ hl).elim
          | simp [traverseEntry, hl] at heq
  · intro key s copiedData g nv c1 g1 log1 heq hnd hagree
    rcases hg : getUpdater s with _ | u
    · simp only [traverseEntry, parseAndUpdate, hg, Option.some.injEq,
        Prod.mk.injEq] at heq
      obtain ⟨rfl, rfl, -, -⟩ := heq
      exact ⟨hagree, fun k hk => rfl, rfl⟩
    · rcases hu : updaterUpdate u s g with ⟨w, g2⟩ | e
      · simp only [traverseEntry, parseAndUpdate, hg, hu, Option.some.injEq,
          Prod.mk.injEq] at heq
        obtain ⟨rfl, rfl, -, -⟩ := heq
        have hmem : key ∈ keysOf copiedData := lookupKey_mem hagree
        exact ⟨lookupKey_setKey_self _ _ _, fun k hk => lookupKey_setKey_ne _ _ hk,
          keysOf_setKey _ hmem⟩
      · simp only [traverseEntry, parseAndUpdate, hg, hu, Option.some.injEq,
          Prod.mk.injEq] at heq
        obtain ⟨rfl, rfl, -, -⟩ := heq
        exact ⟨hagree, fun k hk => rfl, rfl⟩
      · simp [traverseEntry, parseAndUpdate, hg, hu] at heq
  · intro key v copiedData g hobj hstr nv c1 g1 log1 heq hnd hagree
    have hred : nv = v ∧ c1 = copiedData := by
      cases v with
      | obj m => exact (hobj m rfl).elim
      | str s => exact (hstr s rfl).elim
      | num a =>
        simp only [traverseEntry, Option.some.injEq, Prod.mk.injEq] at heq
        exact ⟨heq.1.symm, heq.2.1.symm⟩
      | jbool b =>
        simp only [traverseEntry, Option.some.injEq, Prod.mk.injEq] at heq
        exact ⟨heq.1.symm, heq.2.1.symm⟩
      | null =>
        simp only [traverseEntry, Option.some.injEq, Prod.mk.injEq] at heq
        exact ⟨heq.1.symm, heq.2.1.symm⟩
      | arr xs =>
        simp only [traverseEntry, Option.some.injEq, Prod.mk.injEq] at heq
        exact ⟨heq.1.symm, heq.2.1.symm⟩
    obtain ⟨rfl, rfl⟩ := hred
    exact ⟨hagree, fun k hk => rfl, rfl⟩
  · intro copiedData g d2 c2 g2 log2 heq hnd hagree
    simp only [traverseAndUpdate, Option.some.injEq, Prod.mk.injEq] at heq
    obtain ⟨rfl, rfl, -, -⟩ := heq
    exact ⟨fun k hk => (List.not_mem_nil k hk).elim, fun k _ => rfl, rfl, rfl⟩
  · intro key v rest copiedData g nv c1 g1 log1 hte m2 sm2 g1_1 log1' hwr ih1 ih2
      d2 c2 g2 log2 heq hnd hagree
    simp only [traverseAndUpdate, hte, hwr, Option.some.injEq, Prod.mk.injEq] at heq
    obtain ⟨rfl, rfl, -, -⟩ := heq
    obtain ⟨hknotin, hndv, hndrest⟩ := entriesNodupB_key_not_mem hnd
    have hakey : lookupKey copiedData key = some v := by
      refine hagree key v ?_
      rw [lookupKey_cons, if_pos rfl]
    obtain ⟨E1, E2, E3⟩ := ih1 nv c1 g1 log1 hte hndv hakey
    have hagree2 : ∀ k v2, lookupKey rest k = some v2 → lookupKey c1 k = some v2 := by
      intro k v2 hk
      have hkmem : k ∈ keysOf rest := lookupKey_mem hk
      have hkne : k ≠ key := fun hh => hknotin (hh ▸ hkmem)
      rw [E2 k hkne]
      refine hagree k v2 ?_
      rw [lookupKey_cons, if_neg (fun hh => hkne hh.symm)]
      exact hk
    obtain ⟨F1, F2, F3, F4⟩ := ih2 m2 sm2 g1_1 log1' hwr hndrest hagree2
    refine ⟨?_, ?_, F3.trans E3, by simp [F4]⟩
    · intro k hk
      simp only [keysOf_cons, List.mem_cons] at hk
      rcases hk with rfl | hkr
      · rw [F2 k hknotin, E1, lookupKey_cons, if_pos rfl]
      · have hkne : k ≠ key := fun hh => hknotin (hh ▸ hkr)
        rw [lookupKey_cons, if_neg (fun hh => hkne hh.symm)]
        exact F1 k hkr
    · intro k hk
      simp only [keysOf_cons, List.mem_cons] at hk
      push_neg at hk
      rw [F2 k hk.2, E2 k hk.1]
  · intro key v rest copiedData g nv c1 g1 log1 hte hwr ih1 ih2 d2 c2 g2 log2 heq
      hnd hagree
    simp [traverseAndUpdate, hte, hwr] at heq
  · intro key v rest copiedData g hte ih1 d2 c2 g2 log2 heq hnd hagree
    simp [traverseAndUpdate, hte] at heq

end Gorandomify

namespace Gorandomify

/-! ### The token matcher -/

theorem prefix_excl {s : String} {p q : String}
    (hp : goHasPre s p = true)
    (hno : ¬(p.toList <+: q.toList) ∧ ¬(q.toList <+: p.toList)) :
    goHasPre s q = false := by
  rw [goHasPre] at *
  by_contra hq
  rw [Bool.not_eq_false, List.isPrefixOf_iff_prefix] at hq
  rw [List.isPrefixOf_iff_prefix] at hp
  rcases List.prefix_or_prefix_of_prefix hp hq with h | h
  · exact hno.1 h
  · exact hno.2 h

theorem getUpdater_of_uuid {s : String} (h : goHasPre s "$UUID" = true) :
    getUpdater s = some .uuid := by
  simp [getUpdater, h]

theorem getUpdater_of_int {s : String} (h : goHasPre s "$INT" = true) :
    getUpdater s = some .int := by
  have hu : goHasPre s "$UUID" = false := prefix_excl h (by constructor <;> decide)
  simp [getUpdater, h, hu]

theorem getUpdater_of_char {s : String} (h : goHasPre s "$CHAR" = true) :
    getUpdater s = some .char := by
  have hu : goHasPre s "$UUID" = false := prefix_excl h (by constructor <;> decide)
  have hi : goHasPre s "$INT" = false := prefix_excl h (by constructor <;> decide)
  simp [getUpdater, h, hu, hi]

theorem getUpdater_none {s : String} (h1 : goHasPre s "$UUID" = false)
    (h2 : goHasPre s "$INT" = false) (h3 : goHasPre s "$CHAR" = false) :
    getUpdater s = none := by
  simp [getUpdater, h1, h2, h3]

theorem goHasPre_mkIntToken (d1 d2 : List Char) :
    goHasPre (mkIntToken d1 d2) "$INT" = true := by
  simp [goHasPre, mkIntToken, String.toList, List.isPrefixOf]

theorem goHasPre_mkCharToken (d : List Char) :
    goHasPre (mkCharToken d) "$CHAR" = true := by
  simp [goHasPre, mkCharToken, String.toList, List.isPrefixOf]

end Gorandomify

namespace Gorandomify

/-! ## The claims -/

/-- C1: for every document, a successful walk preserves the key set and the
nesting shape at every level — no key is added or removed; only string
leaves recognized by the token matcher may change; unrecognized strings,
numbers, booleans, null, and arrays (even ones containing placeholder
strings, which are never walked into) are left exactly unchanged. -/
theorem claim_C1 {data copiedData d2 c2 : List (String × JVal)}
    {g g2 : Rand} {log2 : List String}
    (hw : traverseAndUpdate data copiedData g = some (d2, c2, g2, log2)) :
    shapeOK (JVal.obj data) (JVal.obj d2) = true := by
  have h := walk_shape data copiedData g d2 c2 g2 log2 hw
  simpa [shapeOK] using h

/-- Witness for C1 at a concrete document: a nested object, a `$UUID`
leaf, a number, and an array holding a placeholder string. -/
theorem claim_C1_witness :
    traverseAndUpdate
      [("a", .obj [("b", .str "$INT(1:3)")]), ("c", .str "$UUID"),
       ("d", .num 9), ("e", .arr [.str "$INT"])]
      [("a", .obj [("b", .str "$INT(1:3)")]), ("c", .str "$UUID"),
       ("d", .num 9), ("e", .arr [.str "$INT"])]
      [5, 255] =
    some ([("a", .obj [("b", .num 3)]),
           ("c", .str "00000000-0000-0000-0000-0000000000ff"),
           ("d", .num 9), ("e", .arr [.str "$INT"])],
          [("a", .obj [("b", .num 3)]),
           ("c", .str "00000000-0000-0000-0000-0000000000ff"),
           ("d", .num 9), ("e", .arr [.str "$INT"])],
          [], []) ∧
    shapeOK
      (.obj [("a", .obj [("b", .str "$INT(1:3)")]), ("c", .str "$UUID"),
        ("d", .num 9), ("e", .arr [.str "$INT"])])
      (.obj [("a", .obj [("b", .num 3)]),
        ("c", .str "00000000-0000-0000-0000-0000000000ff"),
        ("d", .num 9), ("e", .arr [.str "$INT"])]) = true := by
  have h : traverseAndUpdate
      [("a", .obj [("b", .str "$INT(1:3)")]), ("c", .str "$UUID"),
       ("d", .num 9), ("e", .arr [.str "$INT"])]
      [("a", .obj [("b", .str "$INT(1:3)")]), ("c", .str "$UUID"),
       ("d", .num 9), ("e", .arr [.str "$INT"])]
      [5, 255] =
    some ([("a", .obj [("b", .num 3)]),
           ("c", .str "00000000-0000-0000-0000-0000000000ff"),
           ("d", .num 9), ("e", .arr [.str "$INT"])],
          [("a", .obj [("b", .num 3)]),
           ("c", .str "00000000-0000-0000-0000-0000000000ff"),
           ("d", .num 9), ("e", .arr [.str "$INT"])],
          [], []) := rfl
  exact ⟨h, claim_C1 h⟩

/-- C2 counterexample: the raw token
`$INT(99999999999999999999:99999999999999999999)` has the exact form
`$INT(<lower>:<upper>)` with non-negative integer bounds and
`lower <= upper` (the bounds are equal), yet the generator returns the
error `invalid INT range` instead of succeeding: both bounds overflow
`strconv.Atoi`'s 64-bit range. -/
theorem claim_C2_counterexample :
    intTokenMatch "$INT(99999999999999999999:99999999999999999999)" =
      some ("99999999999999999999".toList, "99999999999999999999".toList) ∧
    digitsVal "99999999999999999999".toList ≤
      digitsVal "99999999999999999999".toList ∧
    getInt "$INT(99999999999999999999:99999999999999999999)" [] =
      GoResult.err "invalid INT range" :=
  ⟨rfl, le_refl _, rfl⟩

/-- C2 amended: for every exact-form token `$INT(<lower>:<upper>)` whose
digit bounds satisfy `lower <= upper`, PROVIDED both bounds fit in a 64-bit
int and the pair is not `(0, 2^63 - 1)` (where the width `upper - lower + 1`
overflows and `rand.Intn` panics), the generator succeeds with a value `v`
such that `lower <= v <= upper`. -/
theorem claim_C2_amended {d1 d2 : List Char}
    (h1 : allDigits d1 = true) (h2 : allDigits d2 = true)
    (hlo : digitsVal d1 ≤ digitsVal d2)
    (hhi : (digitsVal d2 : Int) ≤ maxInt64)
    (hnw : ¬(digitsVal d1 = 0 ∧ (digitsVal d2 : Int) = maxInt64)) (g : Rand) :
    ∃ v g2, getInt (mkIntToken d1 d2) g = GoResult.ok (v, g2) ∧
      (digitsVal d1 : Int) ≤ v ∧ v ≤ (digitsVal d2 : Int) := by
  have hle1 : (digitsVal d1 : Int) ≤ maxInt64 :=
    le_trans (by exact_mod_cast hlo) hhi
  have hmax : maxInt64 = 2 ^ 63 - 1 := by norm_num [maxInt64]
  have hw : (digitsVal d2 : Int) - digitsVal d1 + 1 ≤ maxInt64 := by
    rcases Nat.eq_zero_or_pos (digitsVal d1) with hz | hp
    · have hne : (digitsVal d2 : Int) ≠ maxInt64 := fun hh => hnw ⟨hz, hh⟩
      omega
    · omega
  exact (getInt_ok_spec (intTokenMatch_mk h1 h2) (atoi_digits h1 hle1)
    (atoi_digits h2 hhi) (Int.natCast_nonneg _) (by exact_mod_cast hlo)
    hhi hw g).2.2

/-- Witness for C2 amended at `$INT(1:10)` with draw 7: the result is 8. -/
theorem claim_C2_witness :
    getInt (mkIntToken ['1'] ['1', '0']) [7] = GoResult.ok (8, []) ∧
    ∃ v g2, getInt (mkIntToken ['1'] ['1', '0']) [7] = GoResult.ok (v, g2) ∧
      (digitsVal ['1'] : Int) ≤ v ∧ v ≤ (digitsVal ['1', '0'] : Int) :=
  ⟨rfl, claim_C2_amended (by decide) (by decide) (by decide) (by decide)
    (by decide) [7]⟩

/-- C3 counterexample: `$INT(0:99999999999999999999)` matches the in-pattern
shape (the regex capture groups are digit runs) and numeric parsing of the
upper bound fails (`Atoi` range error), yet `getInt` returns the error
`invalid INT range` — it does NOT degrade to the default `[0, 9999]` path. -/
theorem claim_C3_counterexample :
    intTokenMatch "$INT(0:99999999999999999999)" =
      some (['0'], "99999999999999999999".toList) ∧
    atoi "99999999999999999999".toList = none ∧
    getInt "$INT(0:99999999999999999999)" [] =
      GoResult.err "invalid INT range" :=
  ⟨rfl, rfl, rfl⟩

/-- C3 amended: for an in-pattern token whose bound parsing fails (the only
way a digit run can fail `Atoi` is by exceeding `2^63 - 1`), the generator
surfaces the same `invalid INT range` error as the ordering violation;
the default path is reserved for tokens that do not match the pattern. -/
theorem claim_C3_amended {d1 d2 : List Char}
    (h1 : allDigits d1 = true) (h2 : allDigits d2 = true)
    (hbig : maxInt64 < (digitsVal d1 : Int) ∨ maxInt64 < (digitsVal d2 : Int))
    (g : Rand) :
    getInt (mkIntToken d1 d2) g = GoResult.err "invalid INT range" :=
  getInt_err_of_overflow (intTokenMatch_mk h1 h2) h1 h2 hbig g

/-- Witness for C3 amended at `$INT(0:99999999999999999999)`. -/
theorem claim_C3_witness :
    getInt (mkIntToken ['0'] "99999999999999999999".toList) [3] =
      GoResult.err "invalid INT range" :=
  claim_C3_amended (by decide) (by decide) (Or.inr (by decide)) [3]

/-- C4: for every token `$INT(<lower>:<upper>)` with digit bounds whose
numeric values satisfy `lower > upper`, generation fails with the
RangeError `invalid INT range`; the error is reported (logged), the
original token string is retained unchanged in both the document and the
working copy at that key, and the walk continues with the remaining
entries. -/
theorem claim_C4 {d1 d2 : List Char}
    (h1 : allDigits d1 = true) (h2 : allDigits d2 = true)
    (hgt : digitsVal d2 < digitsVal d1)
    (key : String) (rest copiedData : List (String × JVal)) (g : Rand)
    {rest2 c2 : List (String × JVal)} {g2 : Rand} {log2 : List String}
    (hwr : traverseAndUpdate rest copiedData g = some (rest2, c2, g2, log2)) :
    getInt (mkIntToken d1 d2) g = GoResult.err "invalid INT range" ∧
    parseAndUpdate key (mkIntToken d1 d2) copiedData g =
      some (JVal.str (mkIntToken d1 d2), copiedData, g,
        ["Error updating key: " ++ key ++ ", value: " ++ mkIntToken d1 d2 ++
          ", err: " ++ "invalid INT range"]) ∧
    traverseAndUpdate ((key, JVal.str (mkIntToken d1 d2)) :: rest) copiedData g =
      some ((key, JVal.str (mkIntToken d1 d2)) :: rest2, c2, g2,
        ("Error updating key: " ++ key ++ ", value: " ++ mkIntToken d1 d2 ++
          ", err: " ++ "invalid INT range") :: log2) := by
  have hmatch := intTokenMatch_mk h1 h2
  have herr : ∀ g3 : Rand,
      getInt (mkIntToken d1 d2) g3 = GoResult.err "invalid INT range" :=
    fun g3 => getInt_err_of_gt hmatch h1 h2 hgt g3
  have hupd : getUpdater (mkIntToken d1 d2) = some UpdKind.int :=
    getUpdater_of_int (goHasPre_mkIntToken d1 d2)
  have hpau : parseAndUpdate key (mkIntToken d1 d2) copiedData g =
      some (JVal.str (mkIntToken d1 d2), copiedData, g,
        ["Error updating key: " ++ key ++ ", value: " ++ mkIntToken d1 d2 ++
          ", err: " ++ "invalid INT range"]) := by
    simp [parseAndUpdate, hupd, updaterUpdate, herr g]
  refine ⟨herr g, hpau, ?_⟩
  simp [traverseAndUpdate, traverseEntry, hpau, hwr]

/-- Witness for C4 at `$INT(10:1)`: token retained, error logged, second
key still processed. -/
theorem claim_C4_witness :
    getInt (mkIntToken ['1', '0'] ['1']) [3] =
      GoResult.err "invalid INT range" ∧
    parseAndUpdate "k" (mkIntToken ['1', '0'] ['1'])
        [("k", JVal.str (mkIntToken ['1', '0'] ['1'])), ("x", JVal.num 1)] [3] =
      some (JVal.str (mkIntToken ['1', '0'] ['1']),
        [("k", JVal.str (mkIntToken ['1', '0'] ['1'])), ("x", JVal.num 1)], [3],
        ["Error updating key: " ++ "k" ++ ", value: " ++
          mkIntToken ['1', '0'] ['1'] ++ ", err: " ++ "invalid INT range"]) ∧
    traverseAndUpdate
        [("k", JVal.str (mkIntToken ['1', '0'] ['1'])), ("x", JVal.num 1)]
        [("k", JVal.str (mkIntToken ['1', '0'] ['1'])), ("x", JVal.num 1)] [3] =
      some ([("k", JVal.str (mkIntToken ['1', '0'] ['1'])), ("x", JVal.num 1)],
        [("k", JVal.str (mkIntToken ['1', '0'] ['1'])), ("x", JVal.num 1)], [3],
        ("Error updating key: " ++ "k" ++ ", value: " ++
          mkIntToken ['1', '0'] ['1'] ++ ", err: " ++ "invalid INT range") :: []) := by
  have hwr : traverseAndUpdate [("x", JVal.num 1)]
      [("k", JVal.str (mkIntToken ['1', '0'] ['1'])), ("x", JVal.num 1)] [3] =
      some ([("x", JVal.num 1)],
        [("k", JVal.str (mkIntToken ['1', '0'] ['1'])), ("x", JVal.num 1)],
        [3], []) := rfl
  exact claim_C4 (by decide) (by decide) (by decide) "k"
    [("x", JVal.num 1)]
    [("k", JVal.str (mkIntToken ['1', '0'] ['1'])), ("x", JVal.num 1)] [3] hwr

/-- C5: for every value that does not match the exact `$INT(<d>:<d>)`
pattern (bare `$INT`, non-numeric arguments such as `$INT(a:b)`, or
anything else), the integer generator succeeds with a value in
`[0, 9999]`. -/
theorem claim_C5 {value : String} (h : intTokenMatch value = none) (g : Rand) :
    ∃ v g2, getInt value g = GoResult.ok (v, g2) ∧ 0 ≤ v ∧ v ≤ 9999 := by
  have hb := emod_bounds (show (0 : Int) < 10000 by norm_num) ((g.headD 0 : Nat) : Int)
  exact ⟨_, _, getInt_default h g, hb.1, by omega⟩

/-- Witness for C5 at `$INT(a:b)` (draw 12345 gives 2345) and bare `$INT`. -/
theorem claim_C5_witness :
    getInt "$INT(a:b)" [12345] = GoResult.ok (2345, []) ∧
    (∃ v g2, getInt "$INT(a:b)" [12345] = GoResult.ok (v, g2) ∧
      0 ≤ v ∧ v ≤ 9999) ∧
    (∃ v g2, getInt "$INT" [42] = GoResult.ok (v, g2) ∧ 0 ≤ v ∧ v ≤ 9999) := by
  have h1 : intTokenMatch "$INT(a:b)" = none := rfl
  have h2 : intTokenMatch "$INT" = none := rfl
  exact ⟨rfl, claim_C5 h1 [12345], claim_C5 h2 [42]⟩

end Gorandomify

namespace Gorandomify

/-- C6 counterexample: for the token `$CHAR(9223372036854775808)` (so
`n = 2^63 >= 0`) the generated string has length 10, not `n`: the length
argument exceeds `strconv.Atoi`'s 64-bit range, so the code silently uses
the default length. -/
theorem claim_C6_counterexample :
    (randomString (mkCharToken "9223372036854775808".toList) []).map
      (fun p => p.1.length) = some 10 ∧
    (10 : Nat) ≠ 9223372036854775808 :=
  ⟨rfl, by decide⟩

/-- C6 amended: for `$CHAR(<n>)` with a digit-run length, PROVIDED
`n <= 2^63 - 1` (so `Atoi` accepts it), the generated string has length
exactly `n` and consists only of charset (alphanumeric) characters; any
token whose length argument fails to parse — bare `$CHAR` included —
yields a string of length exactly 10, also alphanumeric. -/
theorem claim_C6_amended {d : List Char} (hd : allDigits d = true)
    (hle : (digitsVal d : Int) ≤ maxInt64)
    {value : String} (hnp : lenArg value = none) (g g3 : Rand) :
    (∃ s g2, randomString (mkCharToken d) g = some (s, g2) ∧
      s.length = digitsVal d ∧ ∀ c ∈ s.toList, c ∈ charset) ∧
    (∃ s g2, randomString value g3 = some (s, g2) ∧
      s.length = 10 ∧ ∀ c ∈ s.toList, c ∈ charset) := by
  constructor
  · have ha : (lenArg (mkCharToken d)).getD 10 = (digitsVal d : Int) := by
      rw [lenArg_mkCharToken hd, atoi_digits hd hle]
      rfl
    obtain ⟨s, g2, hs, hlen, hmem⟩ :=
      randomString_spec ha (Int.natCast_nonneg _) g
    exact ⟨s, g2, hs, by exact_mod_cast hlen, hmem⟩
  · have ha : (lenArg value).getD 10 = (10 : Int) := by rw [hnp]; rfl
    obtain ⟨s, g2, hs, hlen, hmem⟩ := randomString_spec ha (by norm_num) g3
    exact ⟨s, g2, hs, by exact_mod_cast hlen, hmem⟩

/-- Witness for C6 amended: `$CHAR(5)` with draws 0,1,2,3,4 yields
`"abcde"`; bare `$CHAR` yields a length-10 string. -/
theorem claim_C6_witness :
    randomString (mkCharToken ['5']) [0, 1, 2, 3, 4] = some ("abcde", []) ∧
    (∃ s g2, randomString (mkCharToken ['5']) [0, 1, 2, 3, 4] = some (s, g2) ∧
      s.length = digitsVal ['5'] ∧ ∀ c ∈ s.toList, c ∈ charset) ∧
    (∃ s g2, randomString "$CHAR" [0, 0, 0, 0, 0, 0, 0, 0, 0, 0] =
      some (s, g2) ∧ s.length = 10 ∧ ∀ c ∈ s.toList, c ∈ charset) := by
  have hnp : lenArg "$CHAR" = none := rfl
  have hd : allDigits ['5'] = true := by decide
  have hle : (digitsVal ['5'] : Int) ≤ maxInt64 := by decide
  have h := claim_C6_amended hd hle hnp [0, 1, 2, 3, 4]
    [0, 0, 0, 0, 0, 0, 0, 0, 0, 0]
  exact ⟨rfl, h.1, h.2⟩

/-- C7 counterexample: for `$CHAR(-5)` the length argument parses to the
negative integer -5, which reaches `make([]byte, -5)` and panics — the
string generator is not total and does not fall back to the default
length for a negative parsed length. -/
theorem claim_C7_counterexample :
    lenArg "$CHAR(-5)" = some (-5) ∧ randomString "$CHAR(-5)" [] = none :=
  ⟨rfl, rfl⟩

/-- C7 amended: the string generator completes and returns a string for
every raw token whose parsed length (default 10 when absent or unparsable)
is non-negative; a length argument that parses to a negative integer makes
it panic instead. -/
theorem claim_C7_amended (value : String) (g : Rand) :
    (0 ≤ (lenArg value).getD 10 →
      ∃ s g2, randomString value g = some (s, g2)) ∧
    ((lenArg value).getD 10 < 0 → randomString value g = none) := by
  constructor
  · intro hn
    obtain ⟨s, g2, hs, -, -⟩ := randomString_spec rfl hn g
    exact ⟨s, g2, hs⟩
  · intro hn
    rw [randomString, getRandomStrNlen, if_pos hn]

/-- Witness for C7 amended: `$CHAR(3)` completes; `$CHAR(-5)` panics. -/
theorem claim_C7_witness :
    (∃ s g2, randomString "$CHAR(3)" [1, 2, 3] = some (s, g2)) ∧
    randomString "$CHAR(-5)" [9] = none :=
  ⟨(claim_C7_amended "$CHAR(3)" [1, 2, 3]).1 (by decide),
   (claim_C7_amended "$CHAR(-5)" [9]).2 (by decide)⟩

/-- C8: after a successful walk over a document (with duplicate-free keys,
as Go maps guarantee) and the working copy created from it by `copyData`,
the working copy equals the document as a value tree — in particular the
two are value-equal at every key that was visited, every substitution
having written the same generated value into both. -/
theorem claim_C8 {data d2 c2 : List (String × JVal)} {g g2 : Rand}
    {log2 : List String} (hnd : entriesNodupB data = true)
    (hw : traverseAndUpdate data (copyData data) g = some (d2, c2, g2, log2)) :
    c2 = d2 := by
  obtain ⟨A, B, C, D⟩ := walk_copy_aligned data (copyData data) g d2 c2 g2
    log2 hw hnd (fun k v h => h)
  have hndk : (keysOf d2).Nodup := by
    rw [D]
    exact entriesNodupB_nodup hnd
  refine assocExt (C.trans D.symm) (by rw [C.trans D.symm]; exact hndk) ?_
  intro k
  by_cases hk : k ∈ keysOf data
  · exact A k hk
  · have hb := B k hk
    simp only [copyData] at hb
    rw [hb, lookupKey_eq_none hk, lookupKey_eq_none (by rw [D]; exact hk)]

/-- Witness for C8 on a concrete document with a nested object: both trees
come out identical. -/
theorem claim_C8_witness :
    entriesNodupB [("k1", .str "$CHAR(2)"),
      ("k2", .obj [("n", .str "$INT(5:5)")]), ("k3", .jbool true)] = true ∧
    traverseAndUpdate
      [("k1", .str "$CHAR(2)"), ("k2", .obj [("n", .str "$INT(5:5)")]),
        ("k3", .jbool true)]
      (copyData [("k1", .str "$CHAR(2)"), ("k2", .obj [("n", .str "$INT(5:5)")]),
        ("k3", .jbool true)]) [0, 61, 9] =
      some ([("k1", .str "a9"), ("k2", .obj [("n", .num 5)]), ("k3", .jbool true)],
        [("k1", .str "a9"), ("k2", .obj [("n", .num 5)]), ("k3", .jbool true)],
        [], []) ∧
    ([("k1", .str "a9"), ("k2", .obj [("n", .num 5)]),
        ("k3", .jbool true)] : List (String × JVal)) =
      [("k1", .str "a9"), ("k2", .obj [("n", .num 5)]), ("k3", .jbool true)] := by
  have hnd : entriesNodupB [("k1", .str "$CHAR(2)"),
      ("k2", .obj [("n", .str "$INT(5:5)")]), ("k3", .jbool true)] = true := rfl
  have hw : traverseAndUpdate
      [("k1", .str "$CHAR(2)"), ("k2", .obj [("n", .str "$INT(5:5)")]),
        ("k3", .jbool true)]
      (copyData [("k1", .str "$CHAR(2)"), ("k2", .obj [("n", .str "$INT(5:5)")]),
        ("k3", .jbool true)]) [0, 61, 9] =
      some ([("k1", .str "a9"), ("k2", .obj [("n", .num 5)]), ("k3", .jbool true)],
        [("k1", .str "a9"), ("k2", .obj [("n", .num 5)]), ("k3", .jbool true)],
        [], []) := rfl
  exact ⟨hnd, hw, claim_C8 hnd hw⟩

/-- C9: the token matcher decides purely by case-sensitive prefix anchored
at the start: `$UUID` maps to the identifier generator, `$INT` to the
integer generator, `$CHAR` to the string generator, regardless of trailing
content; any value with none of the three prefixes gets no updater and
substitution is a no-op — value, shadow map, stream, and log all
unchanged, with no error. -/
theorem claim_C9 (s key : String) (copiedData : List (String × JVal))
    (g : Rand) :
    (goHasPre s "$UUID" = true → getUpdater s = some UpdKind.uuid) ∧
    (goHasPre s "$INT" = true → getUpdater s = some UpdKind.int) ∧
    (goHasPre s "$CHAR" = true → getUpdater s = some UpdKind.char) ∧
    (goHasPre s "$UUID" = false → goHasPre s "$INT" = false →
      goHasPre s "$CHAR" = false →
      getUpdater s = none ∧
      parseAndUpdate key s copiedData g =
        some (JVal.str s, copiedData, g, [])) := by
  refine ⟨getUpdater_of_uuid, getUpdater_of_int, getUpdater_of_char, ?_⟩
  intro hu hi hc
  have hn := getUpdater_none hu hi hc
  exact ⟨hn, by simp [parseAndUpdate, hn]⟩

/-- Witness for C9 at four concrete values, one per dispatch outcome. -/
theorem claim_C9_witness :
    getUpdater "$UUIDxyz" = some UpdKind.uuid ∧
    getUpdater "$INT(9:" = some UpdKind.int ∧
    getUpdater "$CHARCHAR" = some UpdKind.char ∧
    (getUpdater "plain" = none ∧
      parseAndUpdate "k" "plain" [("k", JVal.str "plain")] [4] =
        some (JVal.str "plain", [("k", JVal.str "plain")], [4], [])) := by
  have h1 := claim_C9 "$UUIDxyz" "k" [] []
  have h2 := claim_C9 "$INT(9:" "k" [] []
  have h3 := claim_C9 "$CHARCHAR" "k" [] []
  have h4 := claim_C9 "plain" "k" [("k", JVal.str "plain")] [4]
  exact ⟨h1.1 rfl, h2.2.1 rfl, h3.2.2.1 rfl, h4.2.2.2 rfl rfl rfl⟩

/-- C10 counterexample: for `$INT(0:9223372036854775807)` both bounds parse
as 64-bit machine integers with `lower <= upper`, yet the interval width
`upper - lower + 1` wraps to `-2^63` (non-positive), `rand.Intn` panics,
and the generator aborts rather than returning a result. -/
theorem claim_C10_counterexample :
    atoi "0".toList = some 0 ∧
    atoi "9223372036854775807".toList = some maxInt64 ∧
    wrap64 (wrap64 (maxInt64 - 0) + 1) = -(2 ^ 63) ∧
    getInt "$INT(0:9223372036854775807)" [] = GoResult.panics :=
  ⟨rfl, rfl, by decide, rfl⟩

/-- C10 amended: for every exact-form token whose digit bounds parse as
machine integers with `lower <= upper`, PROVIDED the width
`upper - lower + 1` stays within the 64-bit range (it overflows only for
`lower = 0, upper = 2^63 - 1`), the width computed by the code equals the
mathematical `upper - lower + 1`, is strictly positive, and the generator
returns a result without aborting. -/
theorem claim_C10_amended {d1 d2 : List Char} {lo hi : Int}
    (h1 : allDigits d1 = true) (h2 : allDigits d2 = true)
    (ha1 : atoi d1 = some lo) (ha2 : atoi d2 = some hi)
    (h0 : 0 ≤ lo) (hlo : lo ≤ hi) (hhi : hi ≤ maxInt64)
    (hw : hi - lo + 1 ≤ maxInt64) (g : Rand) :
    wrap64 (wrap64 (hi - lo) + 1) = hi - lo + 1 ∧ 0 < hi - lo + 1 ∧
      ∃ v g2, getInt (mkIntToken d1 d2) g = GoResult.ok (v, g2) := by
  obtain ⟨hwrap, hpos, v, g2, hok, -, -⟩ :=
    getInt_ok_spec (intTokenMatch_mk h1 h2) ha1 ha2 h0 hlo hhi hw g
  exact ⟨hwrap, hpos, v, g2, hok⟩

/-- Witness for C10 amended at `$INT(0:9)` with draw 12 (result 2). -/
theorem claim_C10_witness :
    getInt (mkIntToken ['0'] ['9']) [12] = GoResult.ok (2, []) ∧
    (wrap64 (wrap64 ((9 : Int) - 0) + 1) = 9 - 0 + 1 ∧ (0 : Int) < 9 - 0 + 1 ∧
      ∃ v g2, getInt (mkIntToken ['0'] ['9']) [12] = GoResult.ok (v, g2)) := by
  have ha1 : atoi ['0'] = some 0 := rfl
  have ha2 : atoi ['9'] = some 9 := rfl
  exact ⟨rfl, claim_C10_amended (by decide) (by decide) ha1 ha2 (by decide)
    (by decide) (by decide) (by decide) [12]⟩

end Gorandomify
